import Mathlib

/-!
# Verification of the Turkish bill OCR structured-data extraction core

This file is a shallow embedding, in Lean 4, of the regex/keyword-based
structured-data extraction logic of `backend/main.py` (class `BillOCR`):
`extract_dates`, `extract_amounts`, `extract_items`, `calculate_total`, and
the `extracted_data` portion of `process_bill`.

Modelling conventions:
* Python strings are modelled as `String` / `List Char` (Unicode code points).
* The regex character class `\d` is modelled as the ASCII digits `0`-`9`
  (`Char.isDigit`); `\s` as the six ASCII whitespace characters Python's
  `re` module accepts; `str.lower()` is modelled by a case map
  covering ASCII letters and the Turkish uppercase letters (with
  `'İ'.lower()` expanding, as in Python, to `i` + combining dot above), and
  `re.IGNORECASE` by `reFold`, which additionally identifies the characters
  `i`, `I`, `ı`, `İ` (CPython's extended case pairs make them mutually
  equivalent under `IGNORECASE`).
* The five regular expressions of the source are fixed, so instead of a
  general regex engine each pattern is embedded as a matcher
  `List Char → Option (length consumed × group data)` that reproduces
  Python's leftmost, greedy-with-backtracking semantics for that pattern
  (the finitely many backtracking alternatives of the bounded quantifiers
  `\d{1,2}` and `[.,]?` are tried explicitly, in Python's order; for the
  unbounded `\d+`, `\d*`, `\s*` a maximal run is provably the only viable
  choice because the character class that follows each of them is disjoint
  from the repeated class).
* `re.finditer` / `re.findall` are modelled by `scanAux`: try the matcher at
  every position from the left, and resume after the end of each match.
* `re.findall` on a pattern with one capturing group returns the text of the
  group, not the whole match; the matcher for the second date pattern
  therefore reports the offset and length of its group (the month name).
* Python `float` arithmetic is modelled exactly over `ℚ`.  On the strings
  `calculate_total` actually receives (digits, `.`, `,` — with `,` replaced
  by `.` before parsing), Python `float()` accepts precisely the strings
  with at most one dot and at least one digit, which is what `pyFloat?`
  accepts; all values are non-negative, so the `total > 0` test agrees with
  the floating-point computation.
-/

namespace BillOCR

/-- The regex class `\d`, modelled as ASCII digits (source: `\d` in the
`date_patterns`, `amount_patterns` and quantity patterns). -/
def pyDigit (c : Char) : Bool := c.isDigit

/-- The regex class `\s`: the whitespace characters of Python's `re`. -/
def pyWs (c : Char) : Bool :=
  c == ' ' || c == '\t' || c == '\n' || c == '\x0b' || c == '\x0c' || c == '\r'

/-- Single-character case folding: ASCII letters plus the Turkish uppercase
letters appearing in bill text. -/
def pyLower (c : Char) : Char :=
  if c == 'Ç' then 'ç'
  else if c == 'Ğ' then 'ğ'
  else if c == 'İ' then 'i'
  else if c == 'Ö' then 'ö'
  else if c == 'Ş' then 'ş'
  else if c == 'Ü' then 'ü'
  else c.toLower

/-- Python `str.lower()` of one character, as a character sequence:
`'İ'.lower()` is the two-character string `i` + combining dot above
(U+0307); every other character relevant here lowercases to the single
character `pyLower c`. -/
def pyLowerChar (c : Char) : List Char :=
  if c == 'İ' then ['i', '\u0307'] else [pyLower c]

/-- Length of the maximal run of `\d` at the front of `l`. -/
def digitsRun (l : List Char) : Nat := (l.takeWhile pyDigit).length

/-- Length of the maximal run of `\s` at the front of `l`. -/
def wsRun (l : List Char) : Nat := (l.takeWhile pyWs).length

/-- `listStartsWith p l`: `p` is literally (case-sensitively) a prefix of
`l`.  Used for Python's substring operator `in` on already-lowercased
lines. -/
def listStartsWith : List Char → List Char → Bool
  | [], _ => true
  | _ :: _, [] => false
  | a :: as, b :: bs => a == b && listStartsWith as bs

/-- Python's substring test `needle in hay`. -/
def containsSub (needle : List Char) : List Char → Bool
  | [] => listStartsWith needle []
  | hay@(_ :: rest) => listStartsWith needle hay || containsSub needle rest

/-- Case equivalence used by `re.IGNORECASE`: like `pyLower`, except that
CPython's extended case pairs make `i`, `I`, `ı` (dotless i) and `İ`
mutually equivalent, so the whole class is folded to `i`. -/
def reFold (c : Char) : Char :=
  let low := pyLower c
  if low == 'ı' then 'i' else low

/-- Case-insensitive literal match of `p` at the front of `l`
(`re.IGNORECASE` on a literal alternative such as `tl` or a month name). -/
def litCI : List Char → List Char → Bool
  | [], _ => true
  | _ :: _, [] => false
  | p :: ps, c :: cs => (reFold p == reFold c) && litCI ps cs

/-- One raw regex match produced by the scanner: start offset, length
consumed, capture-group data `α`, and the matched characters. -/
structure RawMatch (α : Type) where
  start : Nat
  len : Nat
  info : α
  chars : List Char
deriving Repr, DecidableEq

/-- `re.finditer`: try the matcher at every position left to right and
resume after the end of each match (Python advances at least one position
even on an empty match).  Structural recursion on fuel; `scanA` supplies
fuel `l.length`, which suffices because every step consumes at least one
character. -/
def scanAux {α : Type} (m : List Char → Option (Nat × α)) :
    Nat → List Char → Nat → List (RawMatch α)
  | 0, _, _ => []
  | _ + 1, [], _ => []
  | fuel + 1, l@(_ :: rest), i =>
    match m l with
    | some (n, a) =>
        ⟨i, n, a, l.take n⟩ :: scanAux m fuel (l.drop (n.max 1)) (i + n.max 1)
    | none => scanAux m fuel rest (i + 1)

/-- All matches of `m` in `l`, offsets counted from `i`. -/
def scanA {α : Type} (m : List Char → Option (Nat × α)) (l : List Char) (i : Nat) :
    List (RawMatch α) :=
  scanAux m l.length l i

/-- Matcher for the first amount pattern `\d+[.,]\d{2}\s*(tl|₺)`
(`amount_patterns[0]`, main.py line 65).  `\d+` maximal (the separator
class is disjoint from digits, so no shorter run can succeed), exactly two
digits, `\s*` maximal, then the alternation `tl|₺` tried in order. -/
def matchAmount1 (l : List Char) : Option (Nat × Unit) :=
  let d := digitsRun l
  if d = 0 then none else
  match l.drop d with
  | c :: rest =>
    if c == '.' || c == ',' then
      match rest with
      | a :: b :: rest2 =>
        if pyDigit a && pyDigit b then
          let w := wsRun rest2
          let rest3 := rest2.drop w
          if litCI ['t', 'l'] rest3 then some (d + 3 + w + 2, ())
          else if litCI ['₺'] rest3 then some (d + 3 + w + 1, ())
          else none
        else none
      | _ => none
    else none
  | [] => none

/-- Matcher for the second amount pattern `\d+\s*(tl|₺)`
(`amount_patterns[1]`, main.py line 66). -/
def matchAmount2 (l : List Char) : Option (Nat × Unit) :=
  let d := digitsRun l
  if d = 0 then none else
  let rest := l.drop d
  let w := wsRun rest
  let rest2 := rest.drop w
  if litCI ['t', 'l'] rest2 then some (d + w + 2, ())
  else if litCI ['₺'] rest2 then some (d + w + 1, ())
  else none

/-- Matcher for the third amount pattern `\d+[.,]\d{2}`
(`amount_patterns[2]`, main.py line 67). -/
def matchAmount3 (l : List Char) : Option (Nat × Unit) :=
  let d := digitsRun l
  if d = 0 then none else
  match l.drop d with
  | c :: a :: b :: _ =>
    if (c == '.' || c == ',') && pyDigit a && pyDigit b then some (d + 3, ())
    else none
  | _ => none

/-- One backtracking alternative of the first date pattern
`\d{1,2}[./]\d{1,2}[./]\d{2,4}` (main.py line 61): take exactly `t1`
digits, a separator, exactly `t2` digits, a separator, then the greedy
`\d{2,4}` (nothing follows it, so it takes `min run 4` and needs `run ≥ 2`). -/
def matchDate1With (l : List Char) (t1 t2 : Nat) : Option (Nat × Unit) :=
  if t1 ≤ digitsRun l then
    match l.drop t1 with
    | c :: r1 =>
      if c == '.' || c == '/' then
        if t2 ≤ digitsRun r1 then
          match r1.drop t2 with
          | c2 :: r2 =>
            if c2 == '.' || c2 == '/' then
              let y := digitsRun r2
              if 2 ≤ y then some (t1 + 1 + t2 + 1 + min y 4, ()) else none
            else none
          | [] => none
        else none
      else none
    | [] => none
  else none

/-- Matcher for the first date pattern, with Python's backtracking order on
the two `\d{1,2}` quantifiers: (2,2), (2,1), (1,2), (1,1). -/
def matchDate1 (l : List Char) : Option (Nat × Unit) :=
  match matchDate1With l 2 2 with
  | some r => some r
  | none =>
    match matchDate1With l 2 1 with
    | some r => some r
    | none =>
      match matchDate1With l 1 2 with
      | some r => some r
      | none => matchDate1With l 1 1

/-- The twelve Turkish month names of the second date pattern, in declared
order (main.py line 62). -/
def months : List (List Char) :=
  ["ocak", "şubat", "mart", "nisan", "mayıs", "haziran", "temmuz",
   "ağustos", "eylül", "ekim", "kasım", "aralık"].map String.toList

/-- The alternation of month names: first (in declared order) that matches
case-insensitively at the front of `l`, with its length. -/
def monthMatch (l : List Char) : Option Nat :=
  months.findSome? (fun mn => if litCI mn l then some mn.length else none)

/-- One backtracking alternative of the second date pattern
`\d{1,2}\s*(ocak|…|aralık)\s*\d{2,4}` (main.py line 62), taking exactly `t`
leading digits.  Returns (length consumed, (offset of the capturing group,
length of the group)): `re.findall` returns the group, not the whole
match. -/
def matchDate2With (l : List Char) (t : Nat) : Option (Nat × (Nat × Nat)) :=
  if t ≤ digitsRun l then
    let rest := l.drop t
    let w := wsRun rest
    let rest2 := rest.drop w
    match monthMatch rest2 with
    | some mlen =>
      let rest3 := rest2.drop mlen
      let w2 := wsRun rest3
      let rest4 := rest3.drop w2
      let y := digitsRun rest4
      if 2 ≤ y then some (t + w + mlen + w2 + min y 4, (t + w, mlen)) else none
    | none => none
  else none

/-- Matcher for the second date pattern: `\d{1,2}` tries two digits, then
one. -/
def matchDate2 (l : List Char) : Option (Nat × (Nat × Nat)) :=
  match matchDate2With l 2 with
  | some r => some r
  | none => matchDate2With l 1

/-- Matcher for the quantity pattern `\d+[.,]?\d*\s*<unit>` built in
`extract_items` (main.py line 177) for a unit keyword `u`.  The optional
separator branch is greedy: it is tried first, and inside it `\d*` and
`\s*` maximal are the only viable choices (a shorter run leaves a digit or
a whitespace character where the unit literal must start). -/
def matchQty (u : List Char) (l : List Char) : Option (Nat × Unit) :=
  let d := digitsRun l
  if d = 0 then none else
  let rest := l.drop d
  let withSep : Option (Nat × Unit) :=
    match rest with
    | c :: r2 =>
      if c == '.' || c == ',' then
        let d2 := digitsRun r2
        let r3 := r2.drop d2
        let w := wsRun r3
        if litCI u (r3.drop w) then some (d + 1 + d2 + w + u.length, ()) else none
      else none
    | [] => none
  match withSep with
  | some r => some r
  | none =>
    let w := wsRun rest
    if litCI u (rest.drop w) then some (d + w + u.length, ()) else none

/-- `item_keywords` of `turkish_keywords` (main.py lines 69-74), in
declared order. -/
def item_keywords : List String :=
  ["süt", "ekmek", "peynir", "domates", "patates", "soğan", "elma", "muz",
   "tavuk", "et", "balık", "yumurta", "yoğurt", "tereyağı", "zeytinyağı",
   "pirinç", "makarna", "fasulye", "mercimek", "bulgur", "şeker", "tuz",
   "çay", "kahve", "su", "meyve", "sebze", "karnabahar", "havuç", "biber"]

/-- `quantity_keywords` of `turkish_keywords` (main.py line 75). -/
def quantity_keywords : List String := ["kg", "gr", "lt", "adet", "paket", "kutu"]

/-- An element of the list returned by `extract_amounts` (main.py lines
150-154): the matched substring, the cleaned value, and the match span. -/
structure AmountMatch where
  original : String
  value : String
  position : Nat × Nat
deriving Repr, DecidableEq

/-- An element of the list returned by `extract_items` (main.py lines
184-189). -/
structure ItemLine where
  line : String
  items : List String
  quantities : List String
  amounts : List AmountMatch
deriving Repr, DecidableEq

/-- `re.sub(r'[^\d.,]', '', s)` (main.py line 148): keep only digits, `.`
and `,`. -/
def cleanAmount (s : List Char) : List Char :=
  s.filter (fun c => pyDigit c || c == '.' || c == ',')

/-- The three amount matchers, in declared order. -/
def amount_patterns : List (List Char → Option (Nat × Unit)) :=
  [matchAmount1, matchAmount2, matchAmount3]

/-- Loop body of `extract_amounts` (main.py lines 145-154): clean the
matched text and emit it unless the cleaned value is empty
(`if amount_clean:`). -/
def emitAmount (r : RawMatch Unit) : Option AmountMatch :=
  let cleaned := cleanAmount r.chars
  if cleaned.isEmpty then none
  else some ⟨String.mk r.chars, String.mk cleaned, (r.start, r.start + r.len)⟩

/-- `BillOCR.extract_amounts` (main.py lines 140-155), on a list of
characters: for each pattern in order, for each match left to right, clean
the matched text and emit it unless the cleaned value is empty. -/
def extract_amountsL (l : List Char) : List AmountMatch :=
  amount_patterns.flatMap (fun m => (scanA m l 0).filterMap emitAmount)

/-- `BillOCR.extract_amounts` on a Python string. -/
def extract_amounts (text : String) : List AmountMatch :=
  extract_amountsL text.toList

/-- `BillOCR.extract_dates` (main.py lines 132-138): `re.findall` for the
two date patterns in order.  The first pattern has no group, so each full
match is appended; the second has one capturing group (the month name), so
`re.findall` appends only the group text. -/
def extract_dates (text : String) : List String :=
  let l := text.toList
  ((scanA matchDate1 l 0).map (fun r => String.mk r.chars))
    ++ ((scanA matchDate2 l 0).map (fun r =>
          String.mk ((r.chars.drop r.info.1).take r.info.2)))

/-- Python `str.strip()`: drop whitespace from both ends. -/
def pyStrip (l : List Char) : List Char :=
  ((l.dropWhile pyWs).reverse.dropWhile pyWs).reverse

/-- Python `text.split('\n')`: split at every newline, keeping empty
pieces (`"".split('\n')` is `[""]`). -/
def splitLines : List Char → List (List Char)
  | [] => [[]]
  | c :: rest =>
    if c == '\n' then [] :: splitLines rest
    else
      match splitLines rest with
      | [] => [[c]]
      | line :: more => (c :: line) :: more

/-- Loop body of `extract_items` (main.py lines 162-189): strip and
lowercase the line; skip it if empty; collect the item keywords (declared
order) contained in it; if none, drop the line, otherwise emit an ItemLine
with the quantity matches (declared unit order, matches left to right) and
the amounts of the line. -/
def processLine (rawLine : List Char) : Option ItemLine :=
  let line : List Char := (pyStrip rawLine).flatMap pyLowerChar
  if line.isEmpty then none else
  let found := item_keywords.filter (fun kw => containsSub kw.toList line)
  if found.isEmpty then none else
  let quantities := quantity_keywords.flatMap (fun u =>
    (scanA (matchQty u.toList) line 0).map (fun r => String.mk r.chars))
  some ⟨String.mk line, found, quantities, extract_amountsL line⟩

/-- `BillOCR.extract_items` (main.py lines 157-191): split on newline and
process each line, dropping the lines with no item keyword. -/
def extract_items (text : String) : List ItemLine :=
  (splitLines text.toList).filterMap processLine

/-- The numeric value of a digit string (most significant first). -/
def natOfDigits (l : List Char) : Nat :=
  l.foldl (fun n c => 10 * n + (c.toNat - 48)) 0

/-- Python `float()` on the strings reaching it from `calculate_total`
(characters drawn from digits and `.` after the `,` → `.` replacement):
such a string parses exactly when it has at most one `.` and at least one
digit; the value is computed exactly over `ℚ`.  Any string outside this
alphabet is rejected (`ValueError` → `none`). -/
def pyFloat? (l : List Char) : Option ℚ :=
  if l.all (fun c => pyDigit c || c == '.')
      && Nat.ble (l.countP (fun c => c == '.')) 1
      && l.any pyDigit then
    let ip := l.takeWhile (fun c => c != '.')
    let fp := (l.dropWhile (fun c => c != '.')).drop 1
    some ((natOfDigits ip : ℚ) + (natOfDigits fp : ℚ) / (10 : ℚ) ^ fp.length)
  else none

/-- The `try` block of `calculate_total` (main.py lines 198-199):
`value_str = amount['value'].replace(',', '.')` then `float(value_str)`;
`none` models the `ValueError` branch. -/
def parseValue (a : AmountMatch) : Option ℚ :=
  pyFloat? (a.value.toList.map (fun c => if c == ',' then '.' else c))

/-- `BillOCR.calculate_total` (main.py lines 193-203): accumulate the
parsed value of each amount, skipping parse failures, and return the total
only when it is strictly positive (`total if total > 0 else None`). -/
def calculate_total (amounts : List AmountMatch) : Option ℚ :=
  let total := amounts.foldl (fun acc a =>
    match parseValue a with
    | some v => acc + v
    | none => acc) 0
  if 0 < total then some total else none

/-- The `extracted_data` record of `process_bill` (main.py lines 218-235). -/
structure ExtractedData where
  dates : List String
  amounts : List AmountMatch
  items : List ItemLine
  total_calculated : Option ℚ
  item_count : Nat
deriving Repr, DecidableEq

/-- The deterministic core of `BillOCR.process_bill` (main.py lines
217-235): dates, amounts and items over the combined text, the total over
the full-text amount list, and `item_count = len(items)`. -/
def processCore (text : String) : ExtractedData :=
  { dates := extract_dates text
    amounts := extract_amounts text
    items := extract_items text
    total_calculated := calculate_total (extract_amounts text)
    item_count := (extract_items text).length }

/-- Two half-open spans `[p.1, p.2)` and `[q.1, q.2)` overlap. -/
def spansOverlap (p q : Nat × Nat) : Prop :=
  max p.1 q.1 < min p.2 q.2

instance (p q : Nat × Nat) : Decidable (spansOverlap p q) :=
  inferInstanceAs (Decidable (_ < _))

/-- The loop body of `extract_amounts` with the `if amount_clean:` guard
removed: every raw match is emitted.  Used to state that the guard is
unreachable. -/
def emitAmountNoGuard (r : RawMatch Unit) : AmountMatch :=
  ⟨String.mk r.chars, String.mk (cleanAmount r.chars), (r.start, r.start + r.len)⟩

/-- `extract_amounts` with the emptiness guard removed. -/
def extract_amountsL_noGuard (l : List Char) : List AmountMatch :=
  amount_patterns.flatMap (fun m => (scanA m l 0).map emitAmountNoGuard)

/-- C1 (counterexample): on the input `"2 kg domates 15,00 tl\nhello world"`
the single returned ItemLine has an amounts list with three entries, so it
does not contain exactly one AmountMatch as the claim states. -/
theorem extract_items_example_three_amounts :
    ((extract_items "2 kg domates 15,00 tl\nhello world").map
      (fun il => il.amounts.length)) = [3] ∧ (3 : Nat) ≠ 1 := by
  exact ⟨by decide, by decide⟩

/-- C1 (amended): on `"2 kg domates 15,00 tl\nhello world"`, `extract_items`
returns exactly one ItemLine with `items = ["domates"]` and
`quantities = ["2 kg"]`, whose amounts list has exactly three AmountMatch
entries, one per amount pattern: `"15,00"` (from `\d+[.,]\d{2}\s*(tl|₺)`),
`"00"` (from `\d+\s*(tl|₺)` matching `"00 tl"`), and `"15,00"` (from
`\d+[.,]\d{2}`). -/
theorem extract_items_example_full :
    extract_items "2 kg domates 15,00 tl\nhello world" =
      [⟨"2 kg domates 15,00 tl", ["domates"], ["2 kg"],
        [⟨"15,00 tl", "15,00", (13, 21)⟩, ⟨"00 tl", "00", (16, 21)⟩,
         ⟨"15,00", "15,00", (13, 18)⟩]⟩] := by
  decide

/-- C2: `re.findall` on the second date pattern returns the text of its
capturing group (the bare month name), not the full matched date: on
`"12 mayıs 2024"` the code yields `["mayıs"]`, while the claimed behaviour
is the whole matched expression `["12 mayıs 2024"]`. -/
theorem extract_dates_group_only :
    extract_dates "12 mayıs 2024" = ["mayıs"]
      ∧ extract_dates "12 mayıs 2024" ≠ ["12 mayıs 2024"] := by
  exact ⟨by decide, by decide⟩

/-- C4: the three amount patterns are applied independently and overlapping
matches are all kept: on `"12,50 tl"` pattern 1 matches span (0,8),
pattern 2 span (3,8) and pattern 3 span (0,5); all three appear in the
output of `extract_amounts` and the spans pairwise overlap. -/
theorem extract_amounts_overlap :
    extract_amounts "12,50 tl" =
      [⟨"12,50 tl", "12,50", (0, 8)⟩, ⟨"50 tl", "50", (3, 8)⟩,
       ⟨"12,50", "12,50", (0, 5)⟩]
    ∧ ((scanA matchAmount1 (String.toList "12,50 tl") 0).map
        (fun r => (r.start, r.start + r.len))) = [(0, 8)]
    ∧ ((scanA matchAmount2 (String.toList "12,50 tl") 0).map
        (fun r => (r.start, r.start + r.len))) = [(3, 8)]
    ∧ ((scanA matchAmount3 (String.toList "12,50 tl") 0).map
        (fun r => (r.start, r.start + r.len))) = [(0, 5)]
    ∧ spansOverlap (0, 8) (3, 8) ∧ spansOverlap (0, 8) (0, 5)
    ∧ spansOverlap (3, 8) (0, 5) := by
  exact ⟨by decide, by decide, by decide, by decide, by decide, by decide, by decide⟩

/-- C6: `calculate_total` on `[{value:"10,50"}, {value:"5.25"}]` returns
exactly `15.75` (= 63/4; both summands and the sum are exactly
representable, so the `ℚ` model agrees with Python's float arithmetic
here). -/
theorem calculate_total_example :
    calculate_total [⟨"10,50", "10,50", (0, 0)⟩, ⟨"5.25", "5.25", (0, 0)⟩]
      = some ((63 : ℚ) / 4) := by
  have h : calculate_total [⟨"10,50", "10,50", (0, 0)⟩, ⟨"5.25", "5.25", (0, 0)⟩]
      = if 0 < ((0 : ℚ) + ((10 : ℚ) + 50 / 10 ^ 2) + ((5 : ℚ) + 25 / 10 ^ 2)) then
          some ((0 : ℚ) + ((10 : ℚ) + 50 / 10 ^ 2) + ((5 : ℚ) + 25 / 10 ^ 2)) else none := rfl
  rw [h, if_pos (by norm_num)]
  norm_num

/-- The accumulator loop of `calculate_total` computes the starting
accumulator plus the sum of the successfully parsed values. -/
theorem foldl_parse_eq_sum (l : List AmountMatch) :
    ∀ acc : ℚ,
      l.foldl (fun acc a =>
        match parseValue a with
        | some v => acc + v
        | none => acc) acc
      = acc + (l.filterMap parseValue).sum := by
  induction l with
  | nil => intro acc; simp
  | cons a l ih =>
    intro acc
    cases h : parseValue a with
    | none => simp [List.foldl_cons, h, ih]
    | some v => simp [List.foldl_cons, h, ih, add_assoc]

/-- `calculate_total` returns the sum of the parseable values when that sum
is strictly positive, and `none` otherwise. -/
theorem calculate_total_eq_sum (amounts : List AmountMatch) :
    calculate_total amounts =
      if 0 < (amounts.filterMap parseValue).sum then
        some ((amounts.filterMap parseValue).sum)
      else none := by
  simp only [calculate_total, foldl_parse_eq_sum, zero_add]

/-- C3: `calculate_total` parses each value with `,` replaced by `.`
(`parseValue`), silently skips values that fail to parse, sums the parsed
values, and returns the sum exactly when it is strictly positive; in
particular it is `none` on `[]` and on `[{value:"0"}]`, and any returned
total is strictly positive.  (Totality — "it never raises" — holds by
construction: `calculate_total` is a total Lean function.) -/
theorem calculate_total_spec :
    calculate_total [] = none
    ∧ calculate_total [⟨"0", "0", (0, 0)⟩] = none
    ∧ (∀ (a : AmountMatch) (rest : List AmountMatch), parseValue a = none →
        calculate_total (a :: rest) = calculate_total rest)
    ∧ (∀ amounts : List AmountMatch,
        calculate_total amounts =
          if 0 < (amounts.filterMap parseValue).sum then
            some ((amounts.filterMap parseValue).sum)
          else none)
    ∧ (∀ (amounts : List AmountMatch) (t : ℚ), calculate_total amounts = some t → 0 < t) := by
  refine ⟨by decide, ?_, ?_, calculate_total_eq_sum, ?_⟩
  · have h : calculate_total [⟨"0", "0", (0, 0)⟩]
        = if 0 < ((0 : ℚ) + ((0 : ℚ) + 0 / 10 ^ 0)) then
            some ((0 : ℚ) + ((0 : ℚ) + 0 / 10 ^ 0)) else none := rfl
    rw [h, if_neg (by norm_num)]
  · intro a rest h
    rw [calculate_total_eq_sum, calculate_total_eq_sum,
      List.filterMap_cons_none h]
  · intro amounts t h
    rw [calculate_total_eq_sum] at h
    split at h
    · exact (Option.some_injective _ h) ▸ (by assumption)
    · exact absurd h (by simp)

/-- Closed witness for C3: applies `calculate_total_spec` at the concrete
unparsable value `".."` (two dots, no digit → `ValueError` → skipped). -/
theorem calculate_total_spec_witness :
    calculate_total [⟨"..", "..", (0, 0)⟩] = calculate_total [] :=
  calculate_total_spec.2.2.1 ⟨"..", "..", (0, 0)⟩ [] (by decide)

/-- C7: the extraction core is total by construction (every function below
is a total Lean function of the input string), and on the empty input all
extracted lists are empty, the computed total is absent, and the assembled
core record is empty. -/
theorem extraction_total_on_empty :
    extract_dates "" = [] ∧ extract_amounts "" = [] ∧ extract_items "" = []
      ∧ calculate_total (extract_amounts "") = none
      ∧ processCore "" = ⟨[], [], [], none, 0⟩ := by
  exact ⟨rfl, rfl, rfl, by decide, by decide⟩

/-- C9: the extraction core is deterministic — the five `extracted_data`
fields (dates, amounts, items, total, item_count) computed by
`processCore` agree on any two invocations with identical input text
(timestamp metadata is added outside the core, in `processing_info`). -/
theorem processCore_deterministic (t₁ t₂ : String) (h : t₁ = t₂) :
    processCore t₁ = processCore t₂ := by
  rw [h]

/-- Closed witness for C9 at a concrete input. -/
theorem processCore_deterministic_witness :
    processCore "2 kg domates 15,00 tl" = processCore "2 kg domates 15,00 tl" :=
  processCore_deterministic "2 kg domates 15,00 tl" "2 kg domates 15,00 tl" rfl

/-- Every AmountMatch produced by `extract_amountsL` has a value obtained
by `cleanAmount`, so each of its characters is a digit, `.` or `,`. -/
theorem value_chars_of_mem_extract_amountsL {l : List Char} {m : AmountMatch}
    (hm : m ∈ extract_amountsL l) :
    ∀ c ∈ m.value.toList, pyDigit c = true ∨ c = '.' ∨ c = ',' := by
  simp only [extract_amountsL, List.mem_flatMap] at hm
  obtain ⟨f, _, hmem⟩ := hm
  simp only [List.mem_filterMap] at hmem
  obtain ⟨r, _, hemit⟩ := hmem
  simp only [emitAmount] at hemit
  split at hemit
  · exact absurd hemit (by simp)
  · have hval : m.value = String.mk (cleanAmount r.chars) :=
      congrArg AmountMatch.value (Option.some_injective _ hemit).symm
    intro c hc
    rw [hval] at hc
    have hmem2 : c ∈ cleanAmount r.chars := hc
    have := List.of_mem_filter hmem2
    simpa [or_assoc] using this

/-- Shape of any ItemLine produced by `processLine`: its fields are exactly
the stripped-and-lowercased line, the keyword filter over `item_keywords`,
the per-unit quantity matches, and the amounts of the line. -/
theorem processLine_eq {raw : List Char} {il : ItemLine}
    (h : processLine raw = some il) :
    il = ⟨String.mk ((pyStrip raw).flatMap pyLowerChar),
          item_keywords.filter
            (fun kw => containsSub kw.toList ((pyStrip raw).flatMap pyLowerChar)),
          quantity_keywords.flatMap (fun u =>
            (scanA (matchQty u.toList) ((pyStrip raw).flatMap pyLowerChar) 0).map
              (fun r => String.mk r.chars)),
          extract_amountsL ((pyStrip raw).flatMap pyLowerChar)⟩ := by
  simp only [processLine] at h
  split at h
  · exact absurd h (by simp)
  · split at h
    · exact absurd h (by simp)
    · exact (Option.some_injective _ h).symm

/-- C5: for every input text, every AmountMatch emitted by
`extract_amounts` — including every AmountMatch inside an ItemLine of
`extract_items` — has a value string consisting only of digits, `.` and
`,` (all other characters of the matched substring are stripped by
`cleanAmount`). -/
theorem amount_values_clean (text : String) :
    (∀ m ∈ extract_amounts text, ∀ c ∈ m.value.toList,
        pyDigit c = true ∨ c = '.' ∨ c = ',')
    ∧ (∀ il ∈ extract_items text, ∀ m ∈ il.amounts, ∀ c ∈ m.value.toList,
        pyDigit c = true ∨ c = '.' ∨ c = ',') := by
  constructor
  · exact fun m hm => value_chars_of_mem_extract_amountsL hm
  · intro il hil m hm
    simp only [extract_items, List.mem_filterMap] at hil
    obtain ⟨raw, _, hraw⟩ := hil
    have hshape := processLine_eq hraw
    rw [hshape] at hm
    exact value_chars_of_mem_extract_amountsL hm

/-- Closed witness for C5: applies `amount_values_clean` to the input
`"12,50 tl"`, its first AmountMatch and the character `'1'`. -/
theorem amount_values_clean_witness :
    pyDigit '1' = true ∨ '1' = '.' ∨ '1' = ',' :=
  (amount_values_clean "12,50 tl").1 ⟨"12,50 tl", "12,50", (0, 8)⟩ (by decide)
    '1' (by decide)

/-- Every match reported by the scanner starts at or after the scan
position. -/
theorem start_le_of_mem_scanAux {α : Type} (m : List Char → Option (Nat × α)) :
    ∀ (fuel : Nat) (l : List Char) (i : Nat), ∀ r ∈ scanAux m fuel l i, i ≤ r.start := by
  intro fuel
  induction fuel with
  | zero => intro l i r hr; simp [scanAux] at hr
  | succ fuel ih =>
    intro l i r hr
    cases l with
    | nil => simp [scanAux] at hr
    | cons c rest =>
      cases hm : m (c :: rest) with
      | none =>
        simp only [scanAux, hm] at hr
        exact le_trans (Nat.le_succ i) (ih rest (i + 1) r hr)
      | some na =>
        simp only [scanAux, hm] at hr
        rcases List.mem_cons.mp hr with h | h
        · simp [h]
        · exact le_trans (Nat.le_add_right i _) (ih _ _ r h)

/-- Within one pattern, the scanner's matches are in strictly increasing
start-position order (text order, left to right). -/
theorem scanAux_pairwise_lt {α : Type} (m : List Char → Option (Nat × α)) :
    ∀ (fuel : Nat) (l : List Char) (i : Nat),
      (scanAux m fuel l i).Pairwise (fun a b => a.start < b.start) := by
  intro fuel
  induction fuel with
  | zero => intro l i; simp [scanAux]
  | succ fuel ih =>
    intro l i
    cases l with
    | nil => simp [scanAux]
    | cons c rest =>
      cases hm : m (c :: rest) with
      | none => simpa only [scanAux, hm] using ih rest (i + 1)
      | some na =>
        simp only [scanAux, hm]
        refine List.Pairwise.cons ?_ (ih _ _)
        intro b hb
        have h1 := start_le_of_mem_scanAux m fuel _ _ b hb
        have h2 : 1 ≤ na.1.max 1 := Nat.le_max_right _ _
        show i < b.start
        omega

/-- C8 (counterexample): on the single-line input `"ekmek süt"` — where
`"ekmek"` occurs first (the line is literally `"ekmek"` followed by
`" süt"`) — the single ItemLine's items list is `["süt", "ekmek"]`, the
declared keyword order, not the order of occurrence in the line. -/
theorem extract_items_not_occurrence_order :
    ((extract_items "ekmek süt").map (fun il => il.items)) = [["süt", "ekmek"]]
    ∧ (["süt", "ekmek"] : List String) ≠ ["ekmek", "süt"]
    ∧ String.toList "ekmek süt" = String.toList "ekmek" ++ (' ' :: String.toList "süt") := by
  exact ⟨by decide, by decide, by decide⟩

/-- C8 (amended): lists preserve text order only within one pattern: every
pattern's matches are emitted in strictly increasing start-position order
(and patterns are applied in declared order, pattern-major, by the
definitions of `extract_dates`/`extract_amounts`); within one ItemLine the
items list follows the declared order of `item_keywords` (it is a sublist
of it), not the order of occurrence in the line. -/
theorem extraction_order_amended :
    (∀ (α : Type) (m : List Char → Option (Nat × α)) (l : List Char) (i : Nat),
        (scanA m l i).Pairwise (fun a b => a.start < b.start))
    ∧ (∀ (text : String), ∀ il ∈ extract_items text, il.items.Sublist item_keywords) := by
  constructor
  · intro α m l i; exact scanAux_pairwise_lt m l.length l i
  · intro text il hil
    simp only [extract_items, List.mem_filterMap] at hil
    obtain ⟨raw, _, hraw⟩ := hil
    rw [processLine_eq hraw]
    exact List.filter_sublist _

/-- Closed witness for C8 (amended), at the input `"ekmek süt"` and its
single ItemLine. -/
theorem extraction_order_amended_witness :
    (["süt", "ekmek"] : List String).Sublist item_keywords :=
  extraction_order_amended.2 "ekmek süt"
    ⟨"ekmek süt", ["süt", "ekmek"], [], []⟩ (by decide)

/-- A successful match of amount pattern 1 needs a leading digit and
consumes at least one character. -/
theorem matchAmount1_spec {l : List Char} {n : Nat} {u : Unit}
    (h : matchAmount1 l = some (n, u)) : 0 < digitsRun l ∧ 1 ≤ n := by
  simp only [matchAmount1] at h
  by_cases hd : digitsRun l = 0
  · simp [hd] at h
  · refine ⟨Nat.pos_of_ne_zero hd, ?_⟩
    rw [if_neg hd] at h
    repeat' split at h
    all_goals first
      | (rw [Option.some.injEq, Prod.mk.injEq] at h
         obtain ⟨h1, -⟩ := h
         omega)
      | exact absurd h (by simp)

/-- A successful match of amount pattern 2 needs a leading digit and
consumes at least one character. -/
theorem matchAmount2_spec {l : List Char} {n : Nat} {u : Unit}
    (h : matchAmount2 l = some (n, u)) : 0 < digitsRun l ∧ 1 ≤ n := by
  simp only [matchAmount2] at h
  by_cases hd : digitsRun l = 0
  · simp [hd] at h
  · refine ⟨Nat.pos_of_ne_zero hd, ?_⟩
    rw [if_neg hd] at h
    repeat' split at h
    all_goals first
      | (rw [Option.some.injEq, Prod.mk.injEq] at h
         obtain ⟨h1, -⟩ := h
         omega)
      | exact absurd h (by simp)

/-- A successful match of amount pattern 3 needs a leading digit and
consumes at least one character. -/
theorem matchAmount3_spec {l : List Char} {n : Nat} {u : Unit}
    (h : matchAmount3 l = some (n, u)) : 0 < digitsRun l ∧ 1 ≤ n := by
  simp only [matchAmount3] at h
  by_cases hd : digitsRun l = 0
  · simp [hd] at h
  · refine ⟨Nat.pos_of_ne_zero hd, ?_⟩
    rw [if_neg hd] at h
    repeat' split at h
    all_goals first
      | (rw [Option.some.injEq, Prod.mk.injEq] at h
         obtain ⟨h1, -⟩ := h
         omega)
      | exact absurd h (by simp)

/-- Every amount pattern needs a leading digit and consumes at least one
character. -/
theorem amount_pattern_spec {f : List Char → Option (Nat × Unit)}
    (hf : f ∈ amount_patterns) {l : List Char} {n : Nat} {u : Unit}
    (h : f l = some (n, u)) : 0 < digitsRun l ∧ 1 ≤ n := by
  simp only [amount_patterns, List.mem_cons, List.not_mem_nil, or_false] at hf
  rcases hf with rfl | rfl | rfl
  · exact matchAmount1_spec h
  · exact matchAmount2_spec h
  · exact matchAmount3_spec h

/-- A list with a positive digit run starts with a digit. -/
theorem exists_digit_head {l : List Char} (h : 0 < digitsRun l) :
    ∃ c t, l = c :: t ∧ pyDigit c = true := by
  cases l with
  | nil => simp [digitsRun] at h
  | cons c t =>
    by_cases hc : pyDigit c = true
    · exact ⟨c, t, rfl, hc⟩
    · rw [Bool.not_eq_true] at hc
      simp [digitsRun, List.takeWhile_cons, hc] at h

/-- The cleaned value of any amount-pattern match is non-empty: the match
starts with a digit and `cleanAmount` keeps digits. -/
theorem cleanAmount_match_ne_nil {f : List Char → Option (Nat × Unit)}
    (hf : f ∈ amount_patterns) {l : List Char} {n : Nat} {u : Unit}
    (h : f l = some (n, u)) : (cleanAmount (l.take n)).isEmpty = false := by
  obtain ⟨hd, hn⟩ := amount_pattern_spec hf h
  obtain ⟨c, t, rfl, hc⟩ := exists_digit_head hd
  obtain ⟨n', rfl⟩ : ∃ n', n = n' + 1 := ⟨n - 1, by omega⟩
  simp [List.take_succ_cons, cleanAmount, List.filter_cons, hc]

/-- Every match reported by the scanner is the result of the matcher on
some suffix of the text: the matcher accepted `r.len` characters and
`r.chars` is that accepted segment. -/
theorem exists_match_of_mem_scanAux {α : Type} (m : List Char → Option (Nat × α)) :
    ∀ (fuel : Nat) (l : List Char) (i : Nat), ∀ r ∈ scanAux m fuel l i,
      ∃ l', m l' = some (r.len, r.info) ∧ r.chars = l'.take r.len := by
  intro fuel
  induction fuel with
  | zero => intro l i r hr; simp [scanAux] at hr
  | succ fuel ih =>
    intro l i r hr
    cases l with
    | nil => simp [scanAux] at hr
    | cons c rest =>
      cases hm : m (c :: rest) with
      | none =>
        simp only [scanAux, hm] at hr
        exact ih rest (i + 1) r hr
      | some na =>
        simp only [scanAux, hm] at hr
        rcases List.mem_cons.mp hr with h | h
        · subst h
          exact ⟨c :: rest, hm, rfl⟩
        · exact ih _ _ r h

/-- `filterMap` collapses to `map` when the function always succeeds. -/
theorem filterMap_eq_map_of_forall {α β : Type} (f : α → Option β) (g : α → β) :
    ∀ rs : List α, (∀ r ∈ rs, f r = some (g r)) → rs.filterMap f = rs.map g := by
  intro rs h
  induction rs with
  | nil => rfl
  | cons a t ih =>
    simp only [List.filterMap_cons, h a (List.mem_cons_self a t), List.map_cons,
      ih (fun r hr => h r (List.mem_cons_of_mem a hr))]

/-- C10: the `if amount_clean:` guard of `extract_amounts` is unreachable:
every one of the three amount patterns requires at least one digit in any
match, so after stripping all characters other than digits, `.` and `,`,
the cleaned value is never empty and every regex match is emitted — the
function is extensionally equal to the guard-free variant. -/
theorem extract_amounts_guard_unreachable (text : String) :
    extract_amounts text = extract_amountsL_noGuard text.toList
    ∧ ∀ f ∈ amount_patterns, ∀ r ∈ scanA f text.toList 0,
        (cleanAmount r.chars).isEmpty = false := by
  have key : ∀ f ∈ amount_patterns, ∀ r ∈ scanA f text.toList 0,
      (cleanAmount r.chars).isEmpty = false := by
    intro f hf r hr
    obtain ⟨l', hm, hchars⟩ := exists_match_of_mem_scanAux f _ _ _ r hr
    rw [hchars]
    exact cleanAmount_match_ne_nil hf hm
  refine ⟨?_, key⟩
  have emit_eq : ∀ f ∈ amount_patterns, ∀ r ∈ scanA f text.toList 0,
      emitAmount r = some (emitAmountNoGuard r) := by
    intro f hf r hr
    have h := key f hf r hr
    simp [emitAmount, emitAmountNoGuard, h]
  simp only [extract_amounts, extract_amountsL, extract_amountsL_noGuard,
    amount_patterns, List.flatMap_cons, List.flatMap_nil, List.append_nil]
  rw [filterMap_eq_map_of_forall _ _ _
        (fun r hr => emit_eq matchAmount1 (by simp [amount_patterns]) r hr),
      filterMap_eq_map_of_forall _ _ _
        (fun r hr => emit_eq matchAmount2 (by simp [amount_patterns]) r hr),
      filterMap_eq_map_of_forall _ _ _
        (fun r hr => emit_eq matchAmount3 (by simp [amount_patterns]) r hr)]

/-- Closed witness for C10: the match of pattern 1 on `"12,50 tl"` has a
non-empty cleaned value. -/
theorem extract_amounts_guard_unreachable_witness :
    (cleanAmount (String.toList "12,50 tl")).isEmpty = false :=
  (extract_amounts_guard_unreachable "12,50 tl").2 matchAmount1
    (by simp [amount_patterns])
    ⟨0, 8, (), String.toList "12,50 tl"⟩ (by decide)

end BillOCR
